import Mathlib

/-!
Shallow embedding of the CAN message data model from `src/message.rs`
(crate `can`): identifiers (`Id`), messages (`Message`), and the range
errors (`RangeError`), together with proofs of the specified properties.

Machine integers (`u8`, `u16`, `u32`) are modelled as `Nat`; the intended
ranges (`v < 2^16` for a `u16`, etc.) appear as explicit hypotheses where
they matter.  The 8-byte backing array `data: [u8; 8]` is a `List Nat` of
length 8.  Rust's `Result` is `Except`; mutation of a `Message` becomes
explicit state passing (an operation returns the updated message).
-/

namespace CAN

/-- 11-bit ID mask (`SHORT_MASK` in message.rs). -/
def SHORT_MASK : Nat := 0x7ff

/-- 29-bit ID mask (`EXTENDED_MASK` in message.rs). -/
def EXTENDED_MASK : Nat := 0x1fffffff

/-- A CAN message identifier (`enum Id` in message.rs).
`Short v` carries a `u16` value, `Extended v` a `u32` value. -/
inductive Id where
  | Short (v : Nat)
  | Extended (v : Nat)
deriving DecidableEq

/-- Message length errors (`enum RangeError` in message.rs). -/
inductive RangeError where
  | DataLength
  | IdLength
deriving DecidableEq

/-- Decidable equality of `Except` results, so that concrete runs of the
fallible operations can be checked by evaluation. -/
instance instDecEqExcept {ε α : Type} [DecidableEq ε] [DecidableEq α] :
    DecidableEq (Except ε α) := fun x y =>
  match x, y with
  | Except.ok a, Except.ok b =>
    if h : a = b then isTrue (by rw [h]) else isFalse (fun hc => h (Except.ok.inj hc))
  | Except.ok _, Except.error _ => isFalse (fun hc => Except.noConfusion hc)
  | Except.error _, Except.ok _ => isFalse (fun hc => Except.noConfusion hc)
  | Except.error d, Except.error e =>
    if h : d = e then isTrue (by rw [h]) else isFalse (fun hc => h (Except.error.inj hc))

/-- `Id::as_extended`: the value of this ID as a u32; a short ID is
zero-extended (on `Nat`, zero-extension is the identity). -/
def Id.as_extended : Id → Nat
  | Id.Short short => short
  | Id.Extended extended => extended

/-- The custom `PartialEq for Id`: equality of the widened values. -/
def Id.beq (a b : Id) : Bool :=
  a.as_extended == b.as_extended

/-- Rust's `u32::cmp`: three-way numeric comparison. -/
def natCmp (a b : Nat) : Ordering :=
  if a < b then Ordering.lt else if a = b then Ordering.eq else Ordering.gt

/-- The `Ord for Id` implementation: compare the widened values. -/
def Id.cmp (a b : Id) : Ordering :=
  natCmp a.as_extended b.as_extended

/-- `Id::is_valid`: the bitmask test `(id & !MASK) == 0`, where the
complement `!` is taken at the width of the value (`u16` for `Short`,
`u32` for `Extended`), hence `0xffff ^^^ MASK` resp. `0xffffffff ^^^ MASK`. -/
def Id.is_valid : Id → Bool
  | Id.Short id => (id &&& (0xffff ^^^ SHORT_MASK)) == 0
  | Id.Extended id => (id &&& (0xffffffff ^^^ EXTENDED_MASK)) == 0

/-- A CAN message (`struct Message` in message.rs): an ID, a length
(`u8`, kept ≤ 8 by the operations) and the 8-byte backing array. -/
structure Message where
  id : Id
  length : Nat
  data : List Nat
deriving DecidableEq

/-- `Message::new`: checks `data.len() <= 8`, then `id.is_valid()`;
on success copies the payload into a zero-initialized 8-byte buffer
(the `for i in 0..data.len()` copy loop is the fold over `List.range`). -/
def Message.new (id : Id) (data : List Nat) : Except RangeError Message :=
  if data.length ≤ 8 then
    if id.is_valid then
      Except.ok { id := id
                  length := data.length
                  data := (List.range data.length).foldl
                    (fun buf i => buf.set i (data.getD i 0)) (List.replicate 8 0) }
    else
      Except.error RangeError.IdLength
  else
    Except.error RangeError.DataLength

/-- `Message::with_short_id`: `Message::new` with a `Short` ID
(the `From<u16> for Id` conversion). -/
def Message.with_short_id (id : Nat) (data : List Nat) : Except RangeError Message :=
  Message.new (Id.Short id) data

/-- `Message::with_extended_id`: `Message::new` with an `Extended` ID
(the `From<u32> for Id` conversion). -/
def Message.with_extended_id (id : Nat) (data : List Nat) : Except RangeError Message :=
  Message.new (Id.Extended id) data

/-- `Message::len`: returns the stored length. -/
def Message.len (m : Message) : Nat := m.length

/-- `Message::set_len`: fails with `DataLength` if `length > 8`; otherwise
zeroes the bytes at indices `self.length..length` (the `for` loop is the
fold over `List.range' m.length (length - m.length)`; it is empty when
shrinking, since `Nat` subtraction truncates exactly like the empty Rust
range) and stores the new length. -/
def Message.set_len (m : Message) (length : Nat) : Except RangeError Message :=
  if length ≤ 8 then
    Except.ok { m with
                data := (List.range' m.length (length - m.length)).foldl
                  (fun buf i => buf.set i 0) m.data
                length := length }
  else
    Except.error RangeError.DataLength

/-- `Message::data`: the read-only view `&self.data[..self.length]`. -/
def Message.dataView (m : Message) : List Nat :=
  m.data.take m.length

/-- A single byte store through the mutable slice returned by
`Message::data_mut` (`&mut self.data[..self.length]`): writing value `v`
at slice index `i` updates the backing byte `i`.  The slice only reaches
indices `i < m.length`; that bound is enforced where writes occur
(see `Reachable.step_write`). -/
def Message.write (m : Message) (i v : Nat) : Message :=
  { m with data := m.data.set i v }

/-- The derived `PartialEq for Message`: field-wise equality, using the
custom widened equality for the `id` field and full 8-byte array equality
for `data`. -/
def Message.beq (a b : Message) : Bool :=
  Id.beq a.id b.id && a.length == b.length && a.data == b.data

/-- Messages reachable through the public API: a successful
`Message::new` (with byte-valued payload), then any sequence of
successful `set_len` calls and in-bounds writes through `data_mut`.
The read-only accessors `id`, `len`, `data` do not change state. -/
inductive Reachable : Message → Prop where
  | mk_new : ∀ (id : Id) (payload : List Nat) (m : Message),
      (∀ b ∈ payload, b < 256) →
      Message.new id payload = Except.ok m → Reachable m
  | step_set_len : ∀ (m : Message) (n : Nat) (m' : Message),
      Reachable m → Message.set_len m n = Except.ok m' → Reachable m'
  | step_write : ∀ (m : Message) (i v : Nat),
      Reachable m → i < m.length → v < 256 → Reachable (Message.write m i v)

/-- Messages reachable as in `Reachable`, but with every `set_len` call
non-shrinking (`m.length ≤ n`). -/
inductive ReachableNoShrink : Message → Prop where
  | mk_new : ∀ (id : Id) (payload : List Nat) (m : Message),
      (∀ b ∈ payload, b < 256) →
      Message.new id payload = Except.ok m → ReachableNoShrink m
  | step_set_len : ∀ (m : Message) (n : Nat) (m' : Message),
      ReachableNoShrink m → m.length ≤ n →
      Message.set_len m n = Except.ok m' → ReachableNoShrink m'
  | step_write : ∀ (m : Message) (i v : Nat),
      ReachableNoShrink m → i < m.length → v < 256 →
      ReachableNoShrink (Message.write m i v)

/-- The zero-tail property: every backing byte at an index ≥ the current
length is zero. -/
def ZeroTail (m : Message) : Prop :=
  ∀ i, m.length ≤ i → m.data.getD i 0 = 0

/-- The message produced by `Message::new(Id::Short(1), &[1, 2, 3])`. -/
def mA0 : Message := { id := Id.Short 1, length := 3, data := [1, 2, 3, 0, 0, 0, 0, 0] }

/-- `mA0` after `set_len(2)`: the byte `3` is still resident at index 2. -/
def mA2 : Message := { id := Id.Short 1, length := 2, data := [1, 2, 3, 0, 0, 0, 0, 0] }

/-- `mA0` after `set_len(5)`. -/
def mA5 : Message := { id := Id.Short 1, length := 5, data := [1, 2, 3, 0, 0, 0, 0, 0] }

/-- `mA5` after `set_len(8)`. -/
def mA8 : Message := { id := Id.Short 1, length := 8, data := [1, 2, 3, 0, 0, 0, 0, 0] }

/-- The message produced by `Message::new(Id::Short(1), &[1, 2])`. -/
def mB2 : Message := { id := Id.Short 1, length := 2, data := [1, 2, 0, 0, 0, 0, 0, 0] }

/-! ### Characterization of the write loops -/

/-- The write loops of `new` and `set_len` preserve the buffer length. -/
lemma foldl_set_length (f : Nat → Nat) (l : List Nat) (buf : List Nat) :
    (l.foldl (fun b i => b.set i (f i)) buf).length = buf.length := by
  induction l generalizing buf with
  | nil => rfl
  | cons x xs ih => simp [List.foldl_cons, ih]

/-- Pointwise effect of the write loops: index `j` holds `f j` if `j` was
visited and is in bounds, and is untouched otherwise. -/
lemma foldl_set_getElem? (f : Nat → Nat) (l : List Nat) (buf : List Nat) (j : Nat) :
    (l.foldl (fun b i => b.set i (f i)) buf)[j]? =
      if j ∈ l ∧ j < buf.length then some (f j) else buf[j]? := by
  induction l generalizing buf with
  | nil => simp
  | cons x xs ih =>
    rw [List.foldl_cons, ih, List.length_set, List.getElem?_set]
    by_cases hj : j < buf.length
    · by_cases hm : j ∈ xs
      · simp [hm, hj]
      · by_cases hx : x = j
        · subst hx
          simp [hm, hj]
        · simp [hm, hj, hx, List.mem_cons, show ¬j = x from fun h => hx h.symm]
    · have hnone : buf[j]? = none := List.getElem?_eq_none (by omega)
      by_cases hm : j ∈ xs <;> by_cases hx : x = j <;>
        simp [hm, hj, hx, hnone]

/-- `getD` version of `foldl_set_getElem?`. -/
lemma foldl_set_getD (f : Nat → Nat) (l : List Nat) (buf : List Nat) (j : Nat) :
    (l.foldl (fun b i => b.set i (f i)) buf).getD j 0 =
      if j ∈ l ∧ j < buf.length then f j else buf.getD j 0 := by
  rw [List.getD_eq_getElem?_getD, List.getD_eq_getElem?_getD, foldl_set_getElem?]
  by_cases h : j ∈ l ∧ j < buf.length <;> simp [h]

/-- `getD` on a zero-filled buffer is zero (inside or outside the bounds). -/
lemma replicate_getD (n j : Nat) : (List.replicate n (0 : Nat)).getD j 0 = 0 := by
  rw [List.getD_eq_getElem?_getD, List.getElem?_replicate]
  split <;> simp

/-! ### Characterization of `Message.new` -/

/-- Unfolding a successful `Message.new`. -/
lemma new_ok_elim {id : Id} {payload : List Nat} {m : Message}
    (h : Message.new id payload = Except.ok m) :
    payload.length ≤ 8 ∧ id.is_valid = true ∧ m.id = id ∧ m.length = payload.length ∧
      m.data = (List.range payload.length).foldl
        (fun buf i => buf.set i (payload.getD i 0)) (List.replicate 8 0) := by
  unfold Message.new at h
  split at h
  · split at h
    · cases h
      exact ⟨by assumption, by assumption, rfl, rfl, rfl⟩
    · cases h
  · cases h

/-- The backing buffer built by `new` has length 8. -/
lemma new_data_length {id : Id} {payload : List Nat} {m : Message}
    (h : Message.new id payload = Except.ok m) : m.data.length = 8 := by
  obtain ⟨-, -, -, -, hd⟩ := new_ok_elim h
  rw [hd, foldl_set_length]
  simp

/-- Bytes of the buffer built by `new`: payload bytes below the payload
length, zero above. -/
lemma new_data_getD {id : Id} {payload : List Nat} {m : Message}
    (h : Message.new id payload = Except.ok m) (j : Nat) :
    m.data.getD j 0 = if j < payload.length then payload.getD j 0 else 0 := by
  obtain ⟨hlen, -, -, -, hd⟩ := new_ok_elim h
  rw [hd, foldl_set_getD, List.length_replicate]
  by_cases hj : j < payload.length
  · rw [if_pos ⟨List.mem_range.mpr hj, by omega⟩, if_pos hj]
  · rw [if_neg (by simp only [List.mem_range]; omega), if_neg hj, replicate_getD]

/-- `getElem?` version of `new_data_getD`. -/
lemma new_data_getElem? {id : Id} {payload : List Nat} {m : Message}
    (h : Message.new id payload = Except.ok m) (j : Nat) :
    m.data[j]? = if j < payload.length then some (payload.getD j 0)
      else if j < 8 then some 0 else none := by
  obtain ⟨hlen, -, -, -, hd⟩ := new_ok_elim h
  rw [hd, foldl_set_getElem?, List.length_replicate, List.getElem?_replicate]
  by_cases hj : j < payload.length
  · rw [if_pos ⟨List.mem_range.mpr hj, by omega⟩, if_pos hj]
  · rw [if_neg (by simp only [List.mem_range]; omega), if_neg hj]

/-- The data view of a freshly constructed message is the payload. -/
lemma new_dataView {id : Id} {payload : List Nat} {m : Message}
    (h : Message.new id payload = Except.ok m) : m.dataView = payload := by
  obtain ⟨hlen, -, -, hlength, -⟩ := new_ok_elim h
  apply List.ext_getElem?
  intro j
  unfold Message.dataView
  rw [hlength]
  by_cases hj : j < payload.length
  · rw [List.getElem?_take_of_lt hj, new_data_getElem? h, if_pos hj,
      List.getElem?_eq_getElem hj, List.getD_eq_getElem?_getD,
      List.getElem?_eq_getElem hj]
    rfl
  · rw [List.getElem?_eq_none (l := m.data.take payload.length) (by simp; omega),
      List.getElem?_eq_none (by omega)]

/-! ### Characterization of `Message.set_len` and `Message.write` -/

/-- Unfolding a successful `Message.set_len`. -/
lemma set_len_ok_elim {m : Message} {n : Nat} {m' : Message}
    (h : Message.set_len m n = Except.ok m') :
    n ≤ 8 ∧ m'.id = m.id ∧ m'.length = n ∧
      m'.data = (List.range' m.length (n - m.length)).foldl
        (fun buf i => buf.set i 0) m.data := by
  unfold Message.set_len at h
  split at h
  · cases h
    exact ⟨by assumption, rfl, rfl, rfl⟩
  · cases h

/-- `set_len` preserves the backing buffer length. -/
lemma set_len_data_length {m : Message} {n : Nat} {m' : Message}
    (h : Message.set_len m n = Except.ok m') : m'.data.length = m.data.length := by
  obtain ⟨-, -, -, hd⟩ := set_len_ok_elim h
  rw [hd]
  exact foldl_set_length (fun _ => 0) _ _

/-- `set_len` zeroes the bytes in `[oldLength, newLength)`. -/
lemma set_len_getD_zero {m : Message} {n : Nat} {m' : Message}
    (h : Message.set_len m n = Except.ok m') {j : Nat}
    (h1 : m.length ≤ j) (h2 : j < n) : m'.data.getD j 0 = 0 := by
  obtain ⟨-, -, -, hd⟩ := set_len_ok_elim h
  rw [hd, foldl_set_getD]
  by_cases hj : j < m.data.length
  · rw [if_pos ⟨List.mem_range'.mpr ⟨j - m.length, by omega, by omega⟩, hj⟩]
  · rw [if_neg (fun hc => hj hc.2), List.getD_eq_getElem?_getD,
      List.getElem?_eq_none (by omega)]
    rfl

/-- `set_len` leaves every byte outside `[oldLength, newLength)` untouched. -/
lemma set_len_getD_unchanged {m : Message} {n : Nat} {m' : Message}
    (h : Message.set_len m n = Except.ok m') {j : Nat}
    (hj : j < m.length ∨ n ≤ j) : m'.data.getD j 0 = m.data.getD j 0 := by
  obtain ⟨-, -, -, hd⟩ := set_len_ok_elim h
  rw [hd, foldl_set_getD, if_neg]
  intro hc
  obtain ⟨i, hi, hij⟩ := List.mem_range'.mp hc.1
  omega

/-- A write through `data_mut` does not change the length. -/
lemma write_length (m : Message) (i v : Nat) : (m.write i v).length = m.length := rfl

/-- A write through `data_mut` preserves the buffer length. -/
lemma write_data_length (m : Message) (i v : Nat) :
    (m.write i v).data.length = m.data.length := by
  simp [Message.write]

/-- A write at index `i` leaves every other index untouched. -/
lemma write_getD_ne (m : Message) {i : Nat} (v : Nat) {j : Nat} (hij : i ≠ j) :
    (m.write i v).data.getD j 0 = m.data.getD j 0 := by
  simp [Message.write, List.getElem?_set_ne hij]

/-! ### The reachability invariant -/

/-- Every message reachable through the public API has `length ≤ 8` and an
8-byte backing buffer (so all internal indexing stays in bounds). -/
lemma reachable_inv {m : Message} (h : Reachable m) :
    m.length ≤ 8 ∧ m.data.length = 8 := by
  induction h with
  | mk_new id payload m hb hok =>
    obtain ⟨hlen, -, -, hlength, -⟩ := new_ok_elim hok
    exact ⟨by omega, new_data_length hok⟩
  | step_set_len m n m' hr hok ih =>
    obtain ⟨hn, -, hlength, -⟩ := set_len_ok_elim hok
    exact ⟨by omega, by rw [set_len_data_length hok]; exact ih.2⟩
  | step_write m i v hr hi hv ih =>
    exact ⟨ih.1, by rw [write_data_length]; exact ih.2⟩

/-! ### Bit-level facts behind `Id.is_valid` -/

/-- A number whose bits at positions ≥ `k` are all clear is below `2 ^ k`. -/
lemma lt_two_pow_of_high_bits {v k : Nat} (h : ∀ i, k ≤ i → v.testBit i = false) :
    v < 2 ^ k := by
  by_contra hlt
  push_neg at hlt
  have hvk : v >>> k ≠ 0 := by
    intro h0
    rw [Nat.shiftRight_eq_div_pow] at h0
    have h1 : 2 ^ k / 2 ^ k ≤ v / 2 ^ k := Nat.div_le_div_right hlt
    rw [Nat.div_self (Nat.two_pow_pos k), h0] at h1
    omega
  obtain ⟨i, hi⟩ := Nat.ne_zero_implies_bit_true hvk
  rw [Nat.testBit_shiftRight] at hi
  rw [h (k + i) (Nat.le_add_right k i)] at hi
  cases hi

/-- Masking with the complement-of-low-bits mask tests whether the value
fits in `k` bits: for `v < 2 ^ w` and a mask `M` whose set bits are exactly
positions `k ≤ i < w`, `v &&& M = 0` iff `v < 2 ^ k`. -/
lemma and_mask_eq_zero_iff {v k w M : Nat} (hv : v < 2 ^ w)
    (hM1 : ∀ i, i < w → k ≤ i → M.testBit i = true)
    (hM2 : ∀ i, i < k → M.testBit i = false) :
    v &&& M = 0 ↔ v < 2 ^ k := by
  constructor
  · intro h
    apply lt_two_pow_of_high_bits
    intro i hki
    by_cases hiw : i < w
    · have hz : (v &&& M).testBit i = false := by rw [h]; exact Nat.zero_testBit i
      rw [Nat.testBit_land, hM1 i hiw hki, Bool.and_true] at hz
      exact hz
    · exact Nat.testBit_lt_two_pow
        (lt_of_lt_of_le hv (Nat.pow_le_pow_right (by omega) (by omega)))
  · intro h
    apply Nat.eq_of_testBit_eq
    intro i
    rw [Nat.testBit_land, Nat.zero_testBit]
    by_cases hik : i < k
    · rw [hM2 i hik, Bool.and_false]
    · rw [Nat.testBit_lt_two_pow
        (lt_of_lt_of_le h (Nat.pow_le_pow_right (by omega) (by omega))), Bool.false_and]

/-- `is_valid` on a short ID, characterized arithmetically. -/
lemma short_valid_iff {v : Nat} (hv : v < 2 ^ 16) :
    (Id.Short v).is_valid = true ↔ v ≤ 0x7ff := by
  have h := and_mask_eq_zero_iff (v := v) (k := 11) (w := 16)
    (M := 0xffff ^^^ SHORT_MASK) hv (by decide) (by decide)
  simp only [Id.is_valid, beq_iff_eq]
  exact h.trans (by omega)

/-- `is_valid` on an extended ID, characterized arithmetically. -/
lemma extended_valid_iff {v : Nat} (hv : v < 2 ^ 32) :
    (Id.Extended v).is_valid = true ↔ v ≤ 0x1fffffff := by
  have h := and_mask_eq_zero_iff (v := v) (k := 29) (w := 32)
    (M := 0xffffffff ^^^ EXTENDED_MASK) hv (by decide) (by decide)
  simp only [Id.is_valid, beq_iff_eq]
  exact h.trans (by omega)

/-! ### Three-way comparison facts -/

lemma natCmp_eq_lt {a b : Nat} : natCmp a b = Ordering.lt ↔ a < b := by
  unfold natCmp
  split_ifs with h1 h2 <;> simp_all

lemma natCmp_eq_eq {a b : Nat} : natCmp a b = Ordering.eq ↔ a = b := by
  unfold natCmp
  split_ifs with h1 h2 <;> simp_all <;> omega

lemma natCmp_eq_gt {a b : Nat} : natCmp a b = Ordering.gt ↔ b < a := by
  unfold natCmp
  split_ifs with h1 h2 <;> simp_all <;> omega

/-! ### The claims -/

/-- C1 (counterexample): the zero-tail invariant does NOT hold for every
reachable message.  After `Message::new(Short(1), &[1,2,3])` and the
shrinking `set_len(2)`, the message is reachable, yet the backing byte at
index 2 ≥ length is the stale value 3, not 0. -/
theorem C1_counterexample :
    Message.new (Id.Short 1) [1, 2, 3] = Except.ok mA0 ∧
    Message.set_len mA0 2 = Except.ok mA2 ∧ Reachable mA2 ∧
    mA2.length ≤ 2 ∧ mA2.data.getD 2 0 = 3 ∧ ¬ZeroTail mA2 := by
  refine ⟨by decide, by decide, ?_, by decide, by decide, ?_⟩
  · exact Reachable.step_set_len mA0 2 mA2
      (Reachable.mk_new (Id.Short 1) [1, 2, 3] mA0 (by decide) (by decide)) (by decide)
  · intro h
    exact absurd (h 2 (by decide)) (by decide)

/-- C1 (amended): the zero-tail invariant holds after construction and is
preserved by `data_mut` writes and by every non-shrinking `set_len`; a
shrinking `set_len` is the one operation that can break it. -/
theorem C1_amended_zero_tail (m : Message) (h : ReachableNoShrink m) : ZeroTail m := by
  induction h with
  | mk_new id payload m hb hok =>
    intro i hi
    obtain ⟨-, -, -, hlength, -⟩ := new_ok_elim hok
    rw [new_data_getD hok, if_neg (by omega)]
  | step_set_len m n m' hr hmn hok ih =>
    intro i hi
    obtain ⟨-, -, hlength, -⟩ := set_len_ok_elim hok
    rw [set_len_getD_unchanged hok (Or.inr (by omega))]
    exact ih i (by omega)
  | step_write m i v hr hlt hv ih =>
    intro j hj
    rw [write_length] at hj
    rw [write_getD_ne m v (by omega)]
    exact ih j hj

/-- C1 witness: the amended theorem applied to the concrete message
obtained by `new(Short(1), &[1,2,3])` followed by the growing `set_len(5)`. -/
theorem C1_witness : ZeroTail mA5 :=
  C1_amended_zero_tail mA5
    (ReachableNoShrink.step_set_len mA0 5 mA5
      (ReachableNoShrink.mk_new (Id.Short 1) [1, 2, 3] mA0 (by decide) (by decide))
      (by decide) (by decide))

/-- C2: `Message::new` returns the `DataLength` error iff the payload
exceeds 8 bytes, and the `IdLength` error iff the payload fits and the ID
is invalid; in particular with an oversized payload AND an invalid ID the
result is `DataLength`, never `IdLength`. -/
theorem C2_new_error_precedence (id : Id) (payload : List Nat) :
    (Message.new id payload = Except.error RangeError.DataLength ↔ 8 < payload.length) ∧
    (Message.new id payload = Except.error RangeError.IdLength ↔
      payload.length ≤ 8 ∧ id.is_valid = false) := by
  by_cases hlen : payload.length ≤ 8
  · cases hval : id.is_valid <;> simp [Message.new, hlen, hval] <;> omega
  · simp [Message.new, hlen] <;> omega

/-- C2 witness: the characterization applied to a concrete oversized
payload together with an out-of-range ID (`DataLength` wins). -/
theorem C2_witness :
    Message.new (Id.Extended 0x20000000) [9, 8, 7, 6, 5, 4, 3, 2, 1] =
      Except.error RangeError.DataLength :=
  (C2_new_error_precedence (Id.Extended 0x20000000) [9, 8, 7, 6, 5, 4, 3, 2, 1]).1.mpr
    (by decide)

/-- C3: for a valid ID and a payload of at most 8 bytes, `Message::new`
succeeds, and the resulting message has `len() == payload.len()`,
`data() == payload` (a copy into the message's own buffer), `id() == id`,
and zero backing bytes beyond the payload. -/
theorem C3_new_success :
    (∀ (id : Id) (payload : List Nat), id.is_valid = true → payload.length ≤ 8 →
      (Message.new id payload).isOk = true) ∧
    (∀ (id : Id) (payload : List Nat) (m : Message),
      Message.new id payload = Except.ok m →
      m.len = payload.length ∧ m.dataView = payload ∧ m.id = id ∧
        ∀ i, payload.length ≤ i → m.data.getD i 0 = 0) := by
  constructor
  · intro id payload hid hlen
    simp [Message.new, hlen, hid, Except.isOk, Except.toBool]
  · intro id payload m h
    obtain ⟨hlen, hval, hid, hlength, -⟩ := new_ok_elim h
    refine ⟨hlength, new_dataView h, hid, fun i hi => ?_⟩
    rw [new_data_getD h, if_neg (by omega)]

/-- C3 witness: the success postcondition at `new(Short(1), &[1,2,3])`. -/
theorem C3_witness :
    (Message.new (Id.Short 1) [1, 2, 3]).isOk = true ∧ mA0.data.getD 5 0 = 0 :=
  ⟨C3_new_success.1 (Id.Short 1) [1, 2, 3] (by decide) (by decide),
    (C3_new_success.2 (Id.Short 1) [1, 2, 3] mA0 (by decide)).2.2.2 5 (by decide)⟩

/-- C4: `set_len(newLength)` with `newLength ≤ 8` succeeds, sets the
length, zeroes exactly the bytes in `[oldLength, newLength)` and leaves
every other backing byte untouched (so shrinking clears nothing); and the
concrete round trip `new(Short(1), &[1,2,3])`, `set_len(5)`, `set_len(8)`
yields data views `[1,2,3,0,0]` and `[1,2,3,0,0,0,0,0]`. -/
theorem C4_set_len_semantics :
    (∀ (m : Message) (n : Nat), n ≤ 8 → (Message.set_len m n).isOk = true) ∧
    (∀ (m : Message) (n : Nat) (m' : Message), Message.set_len m n = Except.ok m' →
      m'.len = n ∧
      (∀ i, m.len ≤ i → i < n → m'.data.getD i 0 = 0) ∧
      (∀ i, i < m.len ∨ n ≤ i → m'.data.getD i 0 = m.data.getD i 0)) ∧
    (Message.new (Id.Short 1) [1, 2, 3] = Except.ok mA0 ∧
      Message.set_len mA0 5 = Except.ok mA5 ∧ mA5.dataView = [1, 2, 3, 0, 0] ∧
      Message.set_len mA5 8 = Except.ok mA8 ∧
      mA8.dataView = [1, 2, 3, 0, 0, 0, 0, 0]) := by
  refine ⟨?_, ?_, by decide⟩
  · intro m n h
    simp [Message.set_len, h, Except.isOk, Except.toBool]
  · intro m n m' h
    obtain ⟨hn, -, hlength, -⟩ := set_len_ok_elim h
    exact ⟨hlength, fun i h1 h2 => set_len_getD_zero h h1 h2,
      fun i hi => set_len_getD_unchanged h hi⟩

/-- C4 witness: `set_len` succeeds at 5 on the concrete message, and the
byte newly exposed by the growth to 8 is zero. -/
theorem C4_witness :
    (Message.set_len mA0 5).isOk = true ∧ mA8.data.getD 5 0 = 0 :=
  ⟨C4_set_len_semantics.1 mA0 5 (by decide),
    (C4_set_len_semantics.2.1 mA5 8 mA8 (by decide)).2.1 5 (by decide) (by decide)⟩

/-- C5: `set_len(newLength)` with `newLength > 8` fails with `DataLength`.
In this state-passing embedding the failing call returns only the error
value, so the caller's message — its `len()` and `data()` — is unchanged
by construction. -/
theorem C5_set_len_fail (m : Message) (n : Nat) (h : 8 < n) :
    Message.set_len m n = Except.error RangeError.DataLength := by
  unfold Message.set_len
  rw [if_neg (by omega)]

/-- C5 witness: `set_len(9)` on a concrete message. -/
theorem C5_witness : Message.set_len mA0 9 = Except.error RangeError.DataLength :=
  C5_set_len_fail mA0 9 (by decide)

/-- C6: two identifiers are equal (under the custom `PartialEq`) iff their
widened 32-bit values are equal numbers; in particular `Short(v)` equals
`Extended(v)` for every 16-bit `v`. -/
theorem C6_cross_width_equality :
    (∀ a b : Id, (Id.beq a b = true ↔ a.as_extended = b.as_extended)) ∧
    (∀ v : Nat, v < 2 ^ 16 → Id.beq (Id.Short v) (Id.Extended v) = true) := by
  constructor
  · intro a b
    simp [Id.beq]
  · intro v hv
    simp [Id.beq, Id.as_extended]

/-- C6 witness: cross-variant equality at `v = 5`. -/
theorem C6_witness : Id.beq (Id.Short 5) (Id.Extended 5) = true :=
  C6_cross_width_equality.2 5 (by decide)

/-- C7: `is_valid` holds for `Short(v)` iff `v ≤ 0x7FF` and for
`Extended(v)` iff `v ≤ 0x1FFFFFFF` (for values of the declared bit
widths); `is_valid` is a total function by construction. -/
theorem C7_is_valid_characterization :
    (∀ v : Nat, v < 2 ^ 16 → ((Id.Short v).is_valid = true ↔ v ≤ 0x7ff)) ∧
    (∀ v : Nat, v < 2 ^ 32 → ((Id.Extended v).is_valid = true ↔ v ≤ 0x1fffffff)) :=
  ⟨fun _ hv => short_valid_iff hv, fun _ hv => extended_valid_iff hv⟩

/-- C7 witness: the characterization at the boundary values `0x7FF` and
`0x1FFFFFFF + 1`. -/
theorem C7_witness :
    ((Id.Short 0x7ff).is_valid = true ↔ (0x7ff : Nat) ≤ 0x7ff) ∧
    ((Id.Extended 0x20000000).is_valid = true ↔ (0x20000000 : Nat) ≤ 0x1fffffff) :=
  ⟨C7_is_valid_characterization.1 0x7ff (by decide),
    C7_is_valid_characterization.2 0x20000000 (by decide)⟩

/-- C8: comparison of identifiers is the numeric comparison of their
widened values; it is reflexive, antisymmetric (gt is the mirror of lt),
transitive, and compares `Equal` exactly when the custom equality holds. -/
theorem C8_id_total_order :
    (∀ a b : Id,
      (Id.cmp a b = Ordering.lt ↔ a.as_extended < b.as_extended) ∧
      (Id.cmp a b = Ordering.eq ↔ a.as_extended = b.as_extended) ∧
      (Id.cmp a b = Ordering.gt ↔ b.as_extended < a.as_extended)) ∧
    (∀ a : Id, Id.cmp a a = Ordering.eq) ∧
    (∀ a b : Id, (Id.cmp a b = Ordering.gt ↔ Id.cmp b a = Ordering.lt)) ∧
    (∀ a b c : Id, Id.cmp a b = Ordering.lt → Id.cmp b c = Ordering.lt →
      Id.cmp a c = Ordering.lt) ∧
    (∀ a b : Id, (Id.cmp a b = Ordering.eq ↔ Id.beq a b = true)) := by
  refine ⟨fun a b => ⟨natCmp_eq_lt, natCmp_eq_eq, natCmp_eq_gt⟩,
    fun a => natCmp_eq_eq.mpr rfl,
    fun a b => natCmp_eq_gt.trans natCmp_eq_lt.symm,
    fun a b c hab hbc =>
      natCmp_eq_lt.mpr (lt_trans (natCmp_eq_lt.mp hab) (natCmp_eq_lt.mp hbc)),
    fun a b => natCmp_eq_eq.trans (by simp [Id.beq])⟩

/-- C8 witness: transitivity applied across variants at concrete values. -/
theorem C8_witness : Id.cmp (Id.Short 3) (Id.Extended 7) = Ordering.lt :=
  C8_id_total_order.2.2.2.1 (Id.Short 3) (Id.Extended 5) (Id.Extended 7)
    (by decide) (by decide)

/-- C9: every reachable message keeps `length ≤ 8` and an exactly 8-byte
backing buffer, so every internal index and slice bound (`data[i]` in the
copy and zero-fill loops, `data[..length]` in the accessors) is in bounds;
and each fallible operation reports failure as a returned `RangeError`
value (`new` and `set_len` exhaust their outcomes below).  Totality itself
holds by construction: every embedded operation is a total Lean function. -/
theorem C9_totality :
    (∀ m : Message, Reachable m → m.length ≤ 8 ∧ m.data.length = 8) ∧
    (∀ (id : Id) (payload : List Nat), (Message.new id payload).isOk = true ∨
      Message.new id payload = Except.error RangeError.DataLength ∨
      Message.new id payload = Except.error RangeError.IdLength) ∧
    (∀ (m : Message) (n : Nat), (Message.set_len m n).isOk = true ∨
      Message.set_len m n = Except.error RangeError.DataLength) := by
  refine ⟨fun m h => reachable_inv h, ?_, ?_⟩
  · intro id payload
    unfold Message.new
    split
    · split
      · exact Or.inl rfl
      · exact Or.inr (Or.inr rfl)
    · exact Or.inr (Or.inl rfl)
  · intro m n
    unfold Message.set_len
    split
    · exact Or.inl rfl
    · exact Or.inr rfl

/-- C9 witness: the invariant at the concrete reachable message `mA0`. -/
theorem C9_witness : mA0.length ≤ 8 ∧ mA0.data.length = 8 :=
  C9_totality.1 mA0
    (Reachable.mk_new (Id.Short 1) [1, 2, 3] mA0 (by decide) (by decide))

/-- C10: two messages, both reachable through the public API, that agree
on `id()`, `len()` and `data()` yet differ under the derived structural
equality, because the full 8-byte array comparison sees the stale byte
left at index 2 by the shrinking `set_len(2)`. -/
theorem C10_stale_bytes_break_observational_eq :
    Reachable mA2 ∧ Reachable mB2 ∧
    Id.beq mA2.id mB2.id = true ∧ mA2.len = mB2.len ∧
    mA2.dataView = mB2.dataView ∧ Message.beq mA2 mB2 = false := by
  refine ⟨?_, ?_, by decide, by decide, by decide, by decide⟩
  · exact Reachable.step_set_len mA0 2 mA2
      (Reachable.mk_new (Id.Short 1) [1, 2, 3] mA0 (by decide) (by decide)) (by decide)
  · exact Reachable.mk_new (Id.Short 1) [1, 2] mB2 (by decide) (by decide)

end CAN
